import Mathlib

/-!
Verification of the asynchronous job-tracking contract of the
`local-ai-suite` repository, against a shallow embedding of the
documentation-generator service
(`ai-code-documentation-generator/src/main.py`, `main_simple.py`) and of
the directory scanner (`ai-code-documentation-generator/src/scanner.py`).

Modelling conventions:
* Python `datetime.now()` timestamps are modelled by an abstract logical
  clock: `created_at`/`updated_at` are natural numbers, and each
  `updated_at = datetime.now()` refresh in the worker increments the tick.
* `progress` is a Python float in the source; every value it takes
  (`0, 10, 30, 30 + 40*(i+1)/n, 70, 90, 100`) is modelled exactly as a
  rational.  The claims checked here (bounds, monotonicity, equality
  with 100) are insensitive to float rounding for these values.
* External collaborators (git clone, directory scan, per-file parsing,
  LLM generation, HTML rendering, filesystem writes) are opaque
  functions supplied as a `Collaborators` record; each either returns a
  value or fails with a message, mirroring a Python call that may raise.
* `asyncio` runs the statements between two `await` points atomically,
  so the worker is modelled as a sequence of record snapshots, one per
  contiguous block of field assignments.
* The process-wide `jobs_db` dict is an association list with
  replace-on-insert semantics; handlers are written in state-passing
  style `db → response × db` so that non-mutation is a provable fact.
-/

/-- Job record of `main.py` (`DocumentationJob` pydantic model). -/
structure DocumentationJob where
  job_id : String
  status : String
  created_at : Nat
  updated_at : Nat
  progress : ℚ
  message : String
  result_path : Option String
  error : Option String
deriving Repr, DecidableEq

/-- Request body of `POST /api/scan` (`ScanRequest` in `main.py`). -/
structure ScanRequest where
  repo_url : Option String
  local_path : Option String
  file_patterns : List String
  exclude_patterns : List String
  doc_style : String
  include_examples : Bool
  include_tests : Bool
  include_metrics : Bool
  llm_model : String
deriving Repr, DecidableEq

/-- The process-wide `jobs_db` dictionary, keyed by job id. -/
abbrev JobsDB := List (String × DocumentationJob)

/-- Dictionary lookup: `jobs_db[job_id]` / `job_id in jobs_db`. -/
def lookupJob : JobsDB → String → Option DocumentationJob
  | [], _ => none
  | (k, v) :: rest, i => if k = i then some v else lookupJob rest i

/-- Dictionary assignment `jobs_db[job_id] = job` (replace or append). -/
def insertJob : JobsDB → String → DocumentationJob → JobsDB
  | [], k, v => [(k, v)]
  | (k0, v0) :: rest, k, v =>
      if k0 = k then (k, v) :: rest else (k0, v0) :: insertJob rest k v

/-- Python truthiness of an optional string (`None` and `""` are falsy). -/
def truthyOpt : Option String → Bool
  | none => false
  | some s => !s.isEmpty

/-- The external collaborators of the worker, as opaque fallible
functions (scanner, per-file parsing, generator, template renderer and
the filesystem), mirroring §6 of the design. -/
structure Collaborators where
  clone_repository : String → Except String String
  scan_directory : String → List String → List String → Except String (List String)
  parse_file : String → Except String (Option String)
  generate_documentation :
    List String → String → String → Bool → Bool → Bool → Except String String
  render_html : String → Except String String
  mkdir : String → Except String Unit
  write_text : String → String → Except String Unit
  apply_template : String → Option String → Except String String

/-- The `except Exception` handler of `process_documentation`: mark the
job failed, record the cause, refresh the timestamp. -/
def failJob (job : DocumentationJob) (e : String) : DocumentationJob :=
  { job with status := "failed", error := some e,
             message := "Documentation generation failed",
             updated_at := job.updated_at + 1 }

/-- Lines 110–113 of `main.py`: clone when `repo_url` is truthy,
otherwise `Path(request.local_path or ".")`. -/
def choosePath (c : Collaborators) (req : ScanRequest) : Except String String :=
  if truthyOpt req.repo_url then
    c.clone_repository (req.repo_url.getD "")
  else
    Except.ok (match req.local_path with
      | some s => if s.isEmpty then "." else s
      | none => ".")

/-- Lines 156–165 of `main.py`: choose the output file by `doc_style`,
render to HTML when requested, and write it; returns the file path. -/
def writeDoc (c : Collaborators) (req : ScanRequest) (outDir documentation : String) :
    Except String String :=
  if req.doc_style = "markdown" then
    match c.write_text (outDir ++ "/documentation.md") documentation with
    | Except.error e => Except.error e
    | Except.ok _ => Except.ok (outDir ++ "/documentation.md")
  else if req.doc_style = "html" then
    match c.render_html documentation with
    | Except.error e => Except.error e
    | Except.ok html =>
      match c.write_text (outDir ++ "/documentation.html") html with
      | Except.error e => Except.error e
      | Except.ok _ => Except.ok (outDir ++ "/documentation.html")
  else
    match c.write_text (outDir ++ "/documentation." ++ req.doc_style) documentation with
    | Except.error e => Except.error e
    | Except.ok _ => Except.ok (outDir ++ "/documentation." ++ req.doc_style)

/-- The per-file parsing loop (lines 126–133 of `main.py`).  `n` is
`len(files)`; the result is the list of job snapshots taken after each
file together with either the first raised failure (paired with the job
record as of that point) or the final record and the accumulated parsed
data. -/
def parseFiles (c : Collaborators) (n : Nat) :
    List String → Nat → DocumentationJob → List String →
    List DocumentationJob ×
      Except (String × DocumentationJob) (DocumentationJob × List String)
  | [], _, job, acc => ([], Except.ok (job, acc))
  | f :: rest, i, job, acc =>
    match c.parse_file f with
    | Except.error e => ([], Except.error (e, job))
    | Except.ok parsed =>
      let acc2 := match parsed with
        | some p => acc ++ [p]
        | none => acc
      let job2 := { job with
        progress := 30 + (40 * ((i : ℚ) + 1)) / (n : ℚ),
        updated_at := job.updated_at + 1 }
      let r := parseFiles c n rest (i + 1) job2 acc2
      (job2 :: r.1, r.2)

/-- The snapshot after lines 135–138 of `main.py` (status
`generating`, progress 70). -/
def genJob (j3 : DocumentationJob) : DocumentationJob :=
  { j3 with status := "generating", progress := 70,
            message := "Generating documentation...",
            updated_at := j3.updated_at + 1 }

/-- The snapshot after lines 149–151 of `main.py` (progress 90, about
to save). -/
def saveJob (j4 : DocumentationJob) : DocumentationJob :=
  { j4 with progress := 90, message := "Saving documentation...",
            updated_at := j4.updated_at + 1 }

/-- The snapshot after lines 167–171 of `main.py` (terminal success). -/
def completeJob (j5 : DocumentationJob) (docFile : String) : DocumentationJob :=
  { j5 with status := "completed", progress := 100,
            message := "Documentation generated successfully",
            result_path := some docFile, updated_at := j5.updated_at + 1 }

/-- Lines 135–171 of `main.py`: the generation and saving phases,
returning the job snapshots they append after the parsing loop. -/
def genStage (c : Collaborators) (req : ScanRequest) (jobId : String)
    (j3 : DocumentationJob) (parsedData : List String) : List DocumentationJob :=
  match c.generate_documentation parsedData req.doc_style req.llm_model
      req.include_examples req.include_tests req.include_metrics with
  | Except.error e => [genJob j3, failJob (genJob j3) e]
  | Except.ok documentation =>
    match c.mkdir ("output/" ++ jobId) with
    | Except.error e =>
        [genJob j3, saveJob (genJob j3), failJob (saveJob (genJob j3)) e]
    | Except.ok _ =>
      match writeDoc c req ("output/" ++ jobId) documentation with
      | Except.error e =>
          [genJob j3, saveJob (genJob j3), failJob (saveJob (genJob j3)) e]
      | Except.ok docFile =>
          [genJob j3, saveJob (genJob j3), completeJob (saveJob (genJob j3)) docFile]

/-- The snapshot after lines 104–108 of `main.py` (status `scanning`,
progress 10). -/
def startScan (job0 : DocumentationJob) : DocumentationJob :=
  { job0 with status := "scanning", progress := 10,
              message := "Scanning codebase...",
              updated_at := job0.updated_at + 1 }

/-- The snapshot after lines 121–124 of `main.py` (status `parsing`,
progress 30, file count reported). -/
def foundFiles (j1 : DocumentationJob) (n : Nat) : DocumentationJob :=
  { j1 with progress := 30,
            message := "Found " ++ toString n ++ " files to document",
            status := "parsing", updated_at := j1.updated_at + 1 }

/-- Embeds `process_documentation` (lines 101–178 of `main.py`): the full
background worker, as the sequence of snapshots the job record passes
through after the initial record `job0` created at submission. -/
def processDocumentation (c : Collaborators) (req : ScanRequest)
    (job0 : DocumentationJob) : List DocumentationJob :=
  match choosePath c req with
  | Except.error e => [startScan job0, failJob (startScan job0) e]
  | Except.ok codePath =>
    match c.scan_directory codePath req.file_patterns req.exclude_patterns with
    | Except.error e => [startScan job0, failJob (startScan job0) e]
    | Except.ok files =>
      match parseFiles c files.length files 0
          (foundFiles (startScan job0) files.length) [] with
      | (tr, Except.error (e, j)) =>
          startScan job0 :: foundFiles (startScan job0) files.length ::
            (tr ++ [failJob j e])
      | (tr, Except.ok (j3, parsedData)) =>
          startScan job0 :: foundFiles (startScan job0) files.length ::
            (tr ++ genStage c req job0.job_id j3 parsedData)

/-- The record `POST /api/scan` creates (lines 82–89 of `main.py`);
the job id is the stringified current timestamp (line 80). -/
def initialJob (now : Nat) : DocumentationJob :=
  { job_id := toString now, status := "scanning", created_at := now,
    updated_at := now, progress := 0,
    message := "Starting codebase scan...", result_path := none, error := none }

/-- Response of `POST /api/scan`. -/
structure ScanResponse where
  job_id : String
  status : String
deriving Repr, DecidableEq

/-- A deferred `background_tasks.add_task(process_documentation, ...)`
call: the worker's arguments, recorded but not yet executed. -/
structure ScheduledTask where
  job_id : String
  request : ScanRequest
deriving Repr, DecidableEq

/-- Embeds `scan_codebase` (lines 78–99 of `main.py`): allocate the id from the
current timestamp, register the fresh record, schedule the worker (the
worker itself is *not* run here, only its arguments are recorded) and
return at once. -/
def scanCodebase (now : Nat) (req : ScanRequest) (db : JobsDB) :
    ScanResponse × JobsDB × ScheduledTask :=
  ({ job_id := toString now, status := "started" },
   insertJob db (toString now) (initialJob now),
   { job_id := toString now, request := req })

/-- HTTP-level failures of the read endpoints (§7 error taxonomy). -/
inductive HErr where
  | notFound
  | notReady
  | resultMissing
  | internal (msg : String)
deriving Repr, DecidableEq

/-- Embeds `get_job_status` (lines 180–185 of `main.py`): 404 on an unknown id,
otherwise the current snapshot; the table is returned unchanged. -/
def getJobStatus (db : JobsDB) (jobId : String) :
    (Except HErr DocumentationJob) × JobsDB :=
  match lookupJob db jobId with
  | none => (Except.error HErr.notFound, db)
  | some j => (Except.ok j, db)

/-- Python truthiness of `job.result_path`. -/
def falsyPath : Option String → Bool
  | none => true
  | some s => s.isEmpty

/-- Embeds `download_documentation` (lines 187–204 of `main.py`), with the
backing filesystem abstracted as an existence test on paths. -/
def downloadDocumentation (fsExists : String → Bool) (db : JobsDB)
    (jobId : String) : (Except HErr String) × JobsDB :=
  match lookupJob db jobId with
  | none => (Except.error HErr.notFound, db)
  | some job =>
    if job.status ≠ "completed" then (Except.error HErr.notReady, db)
    else if falsyPath job.result_path || !fsExists (job.result_path.getD "") then
      (Except.error HErr.resultMissing, db)
    else (Except.ok (job.result_path.getD ""), db)

/-- Embeds `apply_template` (lines 240–257 of `main.py`): same guards as the
download endpoint, then one collaborator call whose failure becomes a
500; the table is never written. -/
def applyTemplate (c : Collaborators) (db : JobsDB)
    (templateName jobId : String) : (Except HErr String) × JobsDB :=
  match lookupJob db jobId with
  | none => (Except.error HErr.notFound, db)
  | some job =>
    if job.status ≠ "completed" then (Except.error HErr.notReady, db)
    else
      match c.apply_template templateName job.result_path with
      | Except.error e => (Except.error (HErr.internal e), db)
      | Except.ok r => (Except.ok r, db)

/-- Response of `GET /health` in `main.py` (lines 276–283). -/
structure HealthInfo where
  status : String
  timestamp : Nat
  jobs_count : Nat
  active_jobs : Nat
deriving Repr, DecidableEq

/-- Embeds `health_check` of `main.py`: total table size plus the number of
jobs whose status is one of the three in-flight phase labels. -/
def healthCheck (now : Nat) (db : JobsDB) : HealthInfo :=
  { status := "healthy", timestamp := now, jobs_count := db.length,
    active_jobs :=
      (db.filter (fun p =>
        p.2.status = "scanning" ∨ p.2.status = "parsing" ∨ p.2.status = "generating")).length }

/-- The statuses a job of `main.py` can carry. -/
def allStatuses : List String :=
  ["scanning", "parsing", "generating", "completed", "failed"]

/-- Terminal statuses (glossary: `completed` or `failed`). -/
def terminalStatus (s : String) : Prop := s = "completed" ∨ s = "failed"

instance : DecidablePred terminalStatus := fun s => by
  unfold terminalStatus; infer_instance

/-- Request body of the simplified service (`main_simple.py`). -/
structure SimpleScanRequest where
  repo_url : Option String
  local_path : Option String
  doc_style : String
deriving Repr, DecidableEq

/-- Job dictionary entry of `main_simple.py` (a plain dict; it has no
`progress` field at all). -/
structure SimpleJob where
  job_id : String
  status : String
  created_at : String
  request : SimpleScanRequest
  result : Option String
deriving Repr, DecidableEq

/-- Job table of `main_simple.py`. -/
abbrev SimpleJobsDB := List (String × SimpleJob)

/-- Dictionary lookup for the simplified service. -/
def lookupSimple : SimpleJobsDB → String → Option SimpleJob
  | [], _ => none
  | (k, v) :: rest, i => if k = i then some v else lookupSimple rest i

/-- Dictionary assignment for the simplified service. -/
def insertSimple : SimpleJobsDB → String → SimpleJob → SimpleJobsDB
  | [], k, v => [(k, v)]
  | (k0, v0) :: rest, k, v =>
      if k0 = k then (k, v) :: rest else (k0, v0) :: insertSimple rest k v

/-- The f-string value `request.repo_url or request.local_path` of line
134 of `main_simple.py`: first truthy operand, rendered as Python would
render it (`None` prints as `"None"`). -/
def pyOrStr (a b : Option String) : String :=
  if truthyOpt a then a.getD "" else match b with
    | some s => s
    | none => "None"

/-- Embeds `scan_codebase` of `main_simple.py` (lines 121–136): the handler
creates the job in status `scanning`, registers it, and then — still
synchronously, before returning — mutates the same dict to status
`completed` with a fabricated result.  `newId` abstracts
`str(uuid.uuid4())[:8]` and `created` abstracts the ISO timestamp. -/
def simpleScanCodebase (newId created : String) (req : SimpleScanRequest)
    (db : SimpleJobsDB) : ScanResponse × SimpleJobsDB :=
  let job : SimpleJob :=
    { job_id := newId, status := "scanning", created_at := created,
      request := req, result := none }
  let job2 := { job with
    status := "completed",
    result := some ("Documentation generated for " ++
      pyOrStr req.repo_url req.local_path) }
  ({ job_id := newId, status := "started" }, insertSimple db newId job2)

/-- Embeds `get_job_status` of `main_simple.py` (lines 142–146). -/
def simpleGetJobStatus (db : SimpleJobsDB) (jobId : String) :
    (Except HErr SimpleJob) × SimpleJobsDB :=
  match lookupSimple db jobId with
  | none => (Except.error HErr.notFound, db)
  | some j => (Except.ok j, db)

/-- Response of `GET /health` in `main_simple.py` (lines 148–150): only
a liveness string and a timestamp — the job table is not consulted. -/
structure SimpleHealthInfo where
  status : String
  timestamp : String
deriving Repr, DecidableEq

/-- Embeds `health_check` of `main_simple.py`. -/
def simpleHealthCheck (now : String) (_db : SimpleJobsDB) : SimpleHealthInfo :=
  { status := "healthy", timestamp := now }

/-!  ## The directory scanner (`scanner.py`)

`fnmatch.fnmatch` on a POSIX system is a full match of the translated
glob: `*` matches any run, `?` any single character, `[...]` a
character class (`[!...]` negated, a `]` right after the opening is
content, an unclosed `[` is a literal bracket), and anything else is a
literal character. -/

/-- Match a character against the body of a glob character class:
`a-b` is a code-point range (a `-` first or last is literal). -/
def classMatch : List Char → Char → Bool
  | [], _ => false
  | a :: '-' :: b :: rest, c => (a ≤ c && c ≤ b) || classMatch rest c
  | a :: rest, c => a = c || classMatch rest c

/-- Split a list at the first `]`. -/
def findClose : List Char → Option (List Char × List Char)
  | [] => none
  | ']' :: rest => some ([], rest)
  | c :: rest => (findClose rest).map (fun q => (c :: q.1, q.2))

/-- Split the tail of a glob just after `[` into the negation flag, the
class body, and the remainder of the pattern; `none` when the class is
unclosed (in which case `[` is a literal). -/
def splitClass (ps : List Char) : Option (Bool × List Char × List Char) :=
  let p := match ps with
    | '!' :: t => (true, t)
    | _ => (false, ps)
  match p.2 with
  | ']' :: t =>
      (findClose t).map (fun q => (p.1, ']' :: q.1, q.2))
  | _ => (findClose p.2).map (fun q => (p.1, q.1, q.2))

/-- One element of a translated glob, mirroring the regex pieces
`fnmatch.translate` emits: `.*`, `.`, a character class, or a literal
character. -/
inductive GlobTok where
  | star
  | anyChar
  | cls (negated : Bool) (body : List Char)
  | lit (c : Char)
deriving Repr, DecidableEq

/-- The scanning loop of `fnmatch.translate`, which walks the pattern
once emitting one token per construct.  `fuel` is the explicit bound of
that loop (the pattern length suffices, as every step consumes at least
one character). -/
def tokenizeGlob : Nat → List Char → List GlobTok
  | 0, _ => []
  | _ + 1, [] => []
  | fuel + 1, '*' :: ps => GlobTok.star :: tokenizeGlob fuel ps
  | fuel + 1, '?' :: ps => GlobTok.anyChar :: tokenizeGlob fuel ps
  | fuel + 1, '[' :: ps =>
      (match splitClass ps with
       | none => GlobTok.lit '[' :: tokenizeGlob fuel ps
       | some (neg, body, rest) =>
           GlobTok.cls neg body :: tokenizeGlob fuel rest)
  | fuel + 1, p0 :: ps => GlobTok.lit p0 :: tokenizeGlob fuel ps

/-- Full match of a token sequence against a string: `star` matches any
run (some suffix of the rest of the string must match the remaining
tokens), the others consume exactly one character. -/
def matchToks : List GlobTok → List Char → Bool
  | [], s => s.isEmpty
  | GlobTok.star :: ts, s => s.tails.any (fun t => matchToks ts t)
  | GlobTok.anyChar :: ts, s =>
      (match s with
       | [] => false
       | _ :: s2 => matchToks ts s2)
  | GlobTok.cls neg body :: ts, s =>
      (match s with
       | [] => false
       | c :: s2 => (classMatch body c != neg) && matchToks ts s2)
  | GlobTok.lit p0 :: ts, s =>
      (match s with
       | [] => false
       | c :: s2 => p0 = c && matchToks ts s2)

/-- Embeds `fnmatch.fnmatch(name, pat)` (POSIX, where `normcase` is the
identity): translate the glob, then fully match the name. -/
def fnmatch (name pat : String) : Bool :=
  matchToks (tokenizeGlob pat.data.length pat.data) name.data

/-- Embeds `CodeScanner._matches_patterns`: does the filename match at least
one of the patterns? -/
def matchesPatterns (filename : String) (patterns : List String) : Bool :=
  patterns.any (fun pat => fnmatch filename pat)

/-- Embeds `CodeScanner._should_exclude`, over the parts of the path (for the
strings the scanner passes in, `Path(path).parts` is exactly the list
of components): some pattern matches a component or the whole path. -/
def shouldExclude (parts : List String) (excludePatterns : List String) : Bool :=
  excludePatterns.any (fun pat =>
    parts.any (fun part => fnmatch part pat) ||
      fnmatch (String.intercalate "/" parts) pat)

/-- The set `CodeScanner.supported_extensions` (a Python set, order irrelevant). -/
def supportedExtensions : List String :=
  [".py", ".js", ".jsx", ".ts", ".tsx", ".java", ".cpp", ".c", ".h",
   ".hpp", ".cs", ".go", ".rs", ".rb", ".php", ".swift", ".kt", ".scala",
   ".r", ".m", ".sql", ".sh", ".bash", ".ps1", ".yaml", ".yml", ".json"]

/-- Index of the last occurrence of `c` (`str.rfind`). -/
def rfindChar (l : List Char) (c : Char) : Option Nat :=
  l.enum.foldl (fun acc p => if p.2 = c then some p.1 else acc) none

/-- Embeds `PurePath.suffix` of a final path component, as CPython computes it:
everything from the last dot, provided that dot is neither leading nor
trailing. -/
def pathSuffix (name : String) : String :=
  match rfindChar name.data '.' with
  | none => ""
  | some i =>
      if 0 < i && i < name.data.length - 1 then String.mk (name.data.drop i)
      else ""

/-- ASCII `str.lower`, as a character-wise map. -/
def lowerString (s : String) : String := String.mk (s.data.map Char.toLower)

/-- Embeds `file_path.suffix.lower()`. -/
def suffixLower (name : String) : String := lowerString (pathSuffix name)

/-- An in-memory directory tree, the input `os.walk` traverses. -/
inductive FSEntry where
  | file (name : String)
  | dir (name : String) (children : List FSEntry)
deriving Repr

/-- The body of the inner `for filename in filenames` loop of
`scan_directory`: keep a file when it matches a file pattern, is not
excluded, and carries a supported extension; the kept path is
`Path(root) / filename`, as a component list. -/
def hereFiles (fp xp : List String) (root : List String)
    (entries : List FSEntry) : List (List String) :=
  entries.filterMap (fun e => match e with
    | FSEntry.file fn =>
        if matchesPatterns fn fp && !shouldExclude (root ++ [fn]) xp &&
            supportedExtensions.contains (suffixLower fn) then
          some (root ++ [fn])
        else none
    | FSEntry.dir _ _ => none)

/-- The recursive part of the `os.walk` traversal: excluded directories
are pruned (`dirs[:] = ...`), every kept directory contributes its own
files and then its subtree. -/
def walkEntries (fp xp : List String) (root : List String) :
    List FSEntry → List (List String)
  | [] => []
  | FSEntry.file _ :: rest => walkEntries fp xp root rest
  | FSEntry.dir d cs :: rest =>
      (if shouldExclude [d] xp then []
       else hereFiles fp xp (root ++ [d]) cs ++ walkEntries fp xp (root ++ [d]) cs)
      ++ walkEntries fp xp root rest

/-- The whole `os.walk(directory)` filter loop of `scan_directory`:
the root directory's own files, then the pruned recursion. -/
def osWalkScan (fp xp : List String) (root : List String)
    (entries : List FSEntry) : List (List String) :=
  hereFiles fp xp root entries ++ walkEntries fp xp root entries

/-- Strict lexicographic comparison of character lists by code point
(Python string `<`). -/
def charListLt : List Char → List Char → Bool
  | [], [] => false
  | [], _ :: _ => true
  | _ :: _, [] => false
  | a :: as, b :: bs => a < b || (a = b && charListLt as bs)

/-- Python string `<`. -/
def strLt (a b : String) : Bool := charListLt a.data b.data

/-- Python tuple comparison of `PurePath.parts`, which is how `sorted`
orders `Path` objects on POSIX. -/
def partsLe : List String → List String → Bool
  | [], _ => true
  | _ :: _, [] => false
  | a :: as, b :: bs => strLt a b || (a = b && partsLe as bs)

/-- Ordered insertion with respect to `partsLe`. -/
def insortPath (x : List String) : List (List String) → List (List String)
  | [] => [x]
  | y :: ys => if partsLe x y then x :: y :: ys else y :: insortPath x ys

/-- Embeds `sorted(files)`: the collected paths in ascending path order. -/
def sortPaths (l : List (List String)) : List (List String) :=
  l.foldr insortPath []

/-- The default `exclude_patterns` of `scan_directory` (lines 46–50 of
`scanner.py`). -/
def defaultExcludePatterns : List String :=
  ["node_modules", "__pycache__", ".git", "dist", "build",
   "target", "out", ".venv", "venv", "env", ".env",
   "*.pyc", "*.pyo", "*.pyd", ".DS_Store", "Thumbs.db"]

/-- Embeds `CodeScanner.scan_directory` (lines 35–70 of `scanner.py`): falsy
pattern lists are replaced by the defaults, the tree is walked with
exclusion pruning and per-file filtering, and the result is sorted.
The directory argument is the component list of the root path. -/
def scan_directory (root : List String) (entries : List FSEntry)
    (file_patterns exclude_patterns : List String) : List (List String) :=
  let fp := if file_patterns.isEmpty then ["*.*"] else file_patterns
  let xp := if exclude_patterns.isEmpty then defaultExcludePatterns
            else exclude_patterns
  sortPaths (osWalkScan fp xp root entries)

/-! ## Claim-level predicates and concrete fixtures -/

/-- Terminal-state field consistency of a sequence of job snapshots:
`completed` means full progress with a result and no error, `failed`
means an error and no result, and a non-terminal snapshot carries
neither. -/
def TerminalFieldsOK (l : List DocumentationJob) : Prop :=
  ∀ x ∈ l,
    (x.status = "completed" →
      x.progress = 100 ∧ x.result_path ≠ none ∧ x.error = none) ∧
    (x.status = "failed" → x.error ≠ none ∧ x.result_path = none) ∧
    (¬ terminalStatus x.status → x.result_path = none ∧ x.error = none)

/-- Progress discipline of a sequence of job snapshots: bounded by
[0, 100], non-decreasing, and at 100 exactly on `completed`. -/
def ProgressOK (l : List DocumentationJob) : Prop :=
  (∀ x ∈ l, 0 ≤ x.progress ∧ x.progress ≤ 100) ∧
  List.Chain' (fun a b => a.progress ≤ b.progress) l ∧
  (∀ x ∈ l, (x.progress = 100 ↔ x.status = "completed"))

/-- Once a snapshot in the sequence is terminal, every later snapshot
is identical to it. -/
def TerminalAbsorbing (l : List DocumentationJob) : Prop :=
  ∀ (i j : ℕ) (hi : i < l.length) (hj : j < l.length),
    i ≤ j → terminalStatus (l.get ⟨i, hi⟩).status →
    l.get ⟨j, hj⟩ = l.get ⟨i, hi⟩

/-- A collaborator bundle in which every call succeeds. -/
def okCollab : Collaborators :=
  { clone_repository := fun _ => Except.ok "repos/x"
    scan_directory := fun _ _ _ => Except.ok ["f1.py", "f2.py"]
    parse_file := fun f => Except.ok (some f)
    generate_documentation := fun _ _ _ _ _ _ => Except.ok "DOCS"
    render_html := fun s => Except.ok s
    mkdir := fun _ => Except.ok ()
    write_text := fun _ _ => Except.ok ()
    apply_template := fun _ _ => Except.ok "T" }

/-- A collaborator bundle whose directory scan raises. -/
def failScanCollab : Collaborators :=
  { okCollab with scan_directory := fun _ _ _ => Except.error "boom" }

/-- A concrete well-formed scan request. -/
def wreq : ScanRequest :=
  { repo_url := none, local_path := some "/code",
    file_patterns := ["*.py"], exclude_patterns := ["node_modules"],
    doc_style := "markdown", include_examples := true,
    include_tests := true, include_metrics := true,
    llm_model := "llama3.2" }

/-- A scan request with both target fields absent. -/
def defReq : ScanRequest :=
  { repo_url := none, local_path := none,
    file_patterns := ["*.py"], exclude_patterns := ["node_modules"],
    doc_style := "markdown", include_examples := true,
    include_tests := true, include_metrics := true,
    llm_model := "llama3.2" }

/-- A concrete request for the simplified service. -/
def cexReq : SimpleScanRequest :=
  { repo_url := some "https://example.com/x.git", local_path := none,
    doc_style := "markdown" }

/-- A concrete simplified-service job record. -/
def cexSimpleJob : SimpleJob :=
  { job_id := "a", status := "completed", created_at := "t",
    request := cexReq, result := none }

/-! ## Basic lemmas about the job table and the progress arithmetic -/

theorem lookupJob_insertJob_self (db : JobsDB) (k : String) (v : DocumentationJob) :
    lookupJob (insertJob db k v) k = some v := by
  induction db with
  | nil => simp [insertJob, lookupJob]
  | cons hd tl ih =>
      obtain ⟨k0, v0⟩ := hd
      by_cases h : k0 = k
      · simp [insertJob, h, lookupJob]
      · simp [insertJob, h, lookupJob, ih]

theorem loopVal_mono {n k k' : ℕ} (hn : 0 < n) (h : k ≤ k') :
    30 + (40 * (k : ℚ)) / (n : ℚ) ≤ 30 + (40 * (k' : ℚ)) / (n : ℚ) := by
  have hn' : (0 : ℚ) < (n : ℚ) := by exact_mod_cast hn
  have hk : (k : ℚ) ≤ (k' : ℚ) := by exact_mod_cast h
  gcongr

theorem loopVal_le_70 {n k : ℕ} (hn : 0 < n) (h : k ≤ n) :
    30 + (40 * (k : ℚ)) / (n : ℚ) ≤ 70 := by
  have hn' : (0 : ℚ) < (n : ℚ) := by exact_mod_cast hn
  have hk : (k : ℚ) ≤ (n : ℚ) := by exact_mod_cast h
  have h40 : (40 * (k : ℚ)) / (n : ℚ) ≤ 40 := by
    rw [div_le_iff₀ hn']
    nlinarith
  linarith

theorem loopVal_ge_30 {n k : ℕ} :
    (30 : ℚ) ≤ 30 + (40 * (k : ℚ)) / (n : ℚ) := by
  have : (0 : ℚ) ≤ (40 * (k : ℚ)) / (n : ℚ) := by positivity
  linarith

/-! ## Lemmas about the parsing loop -/

theorem parseFiles_mem (c : Collaborators) (n : ℕ) :
    ∀ (rest : List String) (i : ℕ) (job : DocumentationJob) (acc : List String),
    ∀ x ∈ (parseFiles c n rest i job acc).1,
      x.status = job.status ∧ x.message = job.message ∧
      x.result_path = job.result_path ∧ x.error = job.error ∧
      ∃ k : ℕ, i < k ∧ k ≤ i + rest.length ∧
        x.progress = 30 + (40 * (k : ℚ)) / (n : ℚ) := by
  intro rest
  induction rest with
  | nil => intro i job acc x hx; simp [parseFiles] at hx
  | cons f rest ih =>
    intro i job acc x hx
    rw [parseFiles] at hx
    cases hpf : c.parse_file f with
    | error e => rw [hpf] at hx; simp at hx
    | ok parsed =>
      rw [hpf] at hx
      simp only [List.mem_cons] at hx
      rcases hx with rfl | hx
      · refine ⟨rfl, rfl, rfl, rfl, i + 1, by omega, by simp, ?_⟩
        push_cast
        ring
      · obtain ⟨h1, h2, h3, h4, k, hk1, hk2, hk3⟩ := ih (i + 1) _ _ x hx
        refine ⟨h1, h2, h3, h4, k, by omega, ?_, hk3⟩
        simp at hk2 ⊢
        omega

theorem parseFiles_getLast_ok (c : Collaborators) (n : ℕ) :
    ∀ (rest : List String) (i : ℕ) (job : DocumentationJob) (acc : List String)
      (j3 : DocumentationJob) (pd : List String),
    (parseFiles c n rest i job acc).2 = Except.ok (j3, pd) →
      (job :: (parseFiles c n rest i job acc).1).getLast? = some j3 ∧
      j3.status = job.status ∧ j3.message = job.message ∧
      j3.result_path = job.result_path ∧ j3.error = job.error := by
  intro rest
  induction rest with
  | nil =>
    intro i job acc j3 pd h
    rw [parseFiles] at h ⊢
    simp at h
    simp [h.1]
  | cons f rest ih =>
    intro i job acc j3 pd h
    rw [parseFiles] at h ⊢
    cases hpf : c.parse_file f with
    | error e => rw [hpf] at h; simp at h
    | ok parsed =>
      rw [hpf] at h
      simp only at h
      obtain ⟨hl, h1, h2, h3, h4⟩ := ih (i + 1) _ _ j3 pd h
      refine ⟨?_, h1, h2, h3, h4⟩
      simpa using hl

theorem parseFiles_getLast_err (c : Collaborators) (n : ℕ) :
    ∀ (rest : List String) (i : ℕ) (job : DocumentationJob) (acc : List String)
      (e : String) (j : DocumentationJob),
    (parseFiles c n rest i job acc).2 = Except.error (e, j) →
      (job :: (parseFiles c n rest i job acc).1).getLast? = some j ∧
      j.status = job.status ∧ j.message = job.message ∧
      j.result_path = job.result_path ∧ j.error = job.error := by
  intro rest
  induction rest with
  | nil => intro i job acc e j h; rw [parseFiles] at h; simp at h
  | cons f rest ih =>
    intro i job acc e j h
    rw [parseFiles] at h ⊢
    cases hpf : c.parse_file f with
    | error e0 =>
      rw [hpf] at h
      simp only [Except.error.injEq, Prod.mk.injEq] at h
      obtain ⟨-, hj⟩ := h
      subst hj
      simp [hpf]
    | ok parsed =>
      rw [hpf] at h
      simp only at h
      obtain ⟨hl, h1, h2, h3, h4⟩ := ih (i + 1) _ _ e j h
      refine ⟨?_, h1, h2, h3, h4⟩
      simpa using hl

theorem parseFiles_ok_progress (c : Collaborators) (n : ℕ) :
    ∀ (rest : List String) (i : ℕ) (job : DocumentationJob) (acc : List String)
      (j3 : DocumentationJob) (pd : List String),
    job.progress = 30 + (40 * (i : ℚ)) / (n : ℚ) →
    (parseFiles c n rest i job acc).2 = Except.ok (j3, pd) →
    j3.progress = 30 + (40 * ((i + rest.length : ℕ) : ℚ)) / (n : ℚ) := by
  intro rest
  induction rest with
  | nil =>
    intro i job acc j3 pd hjob h
    rw [parseFiles] at h
    simp at h
    rw [← h.1, hjob]
    simp
  | cons f rest ih =>
    intro i job acc j3 pd hjob h
    rw [parseFiles] at h
    cases hpf : c.parse_file f with
    | error e => rw [hpf] at h; simp at h
    | ok parsed =>
      rw [hpf] at h
      simp only at h
      have hstep := ih (i + 1) _ _ j3 pd (by push_cast; ring) h
      rw [hstep]
      norm_num
      ring_nf

theorem parseFiles_err_progress (c : Collaborators) (n : ℕ) :
    ∀ (rest : List String) (i : ℕ) (job : DocumentationJob) (acc : List String)
      (e : String) (j : DocumentationJob),
    job.progress = 30 + (40 * (i : ℚ)) / (n : ℚ) →
    (parseFiles c n rest i job acc).2 = Except.error (e, j) →
    ∃ k : ℕ, i ≤ k ∧ k ≤ i + rest.length ∧
      j.progress = 30 + (40 * (k : ℚ)) / (n : ℚ) := by
  intro rest
  induction rest with
  | nil => intro i job acc e j hjob h; rw [parseFiles] at h; simp at h
  | cons f rest ih =>
    intro i job acc e j hjob h
    rw [parseFiles] at h
    cases hpf : c.parse_file f with
    | error e0 =>
      rw [hpf] at h
      simp only [Except.error.injEq, Prod.mk.injEq] at h
      obtain ⟨-, hj⟩ := h
      subst hj
      exact ⟨i, le_refl i, by omega, hjob⟩
    | ok parsed =>
      rw [hpf] at h
      simp only at h
      obtain ⟨k, hk1, hk2, hk3⟩ := ih (i + 1) _ _ e j (by push_cast; ring) h
      exact ⟨k, by omega, by simp; omega, hk3⟩

theorem parseFiles_chain (c : Collaborators) (n : ℕ) :
    ∀ (rest : List String) (i : ℕ) (job : DocumentationJob) (acc : List String),
    rest.length ≤ n →
    job.progress = 30 + (40 * (i : ℚ)) / (n : ℚ) →
    List.Chain' (fun a b => a.progress ≤ b.progress)
      (job :: (parseFiles c n rest i job acc).1) := by
  intro rest
  induction rest with
  | nil => intro i job acc hn hjob; rw [parseFiles]; simp
  | cons f rest ih =>
    intro i job acc hn hjob
    have hpos : 0 < n := by simp at hn; omega
    rw [parseFiles]
    cases hpf : c.parse_file f with
    | error e => simp [hpf]
    | ok parsed =>
      simp only [hpf]
      rw [List.chain'_cons]
      constructor
      · rw [hjob]
        have := @loopVal_mono n i (i + 1) hpos (by omega)
        simpa [Nat.cast_add] using this
      · exact ih (i + 1) _ _ (by simp at hn ⊢; omega) (by push_cast; ring)


theorem genStage_spec (c : Collaborators) (req : ScanRequest) (jobId : String)
    (j3 : DocumentationJob) (pd : List String) :
    ∃ mid fin, genStage c req jobId j3 pd = mid ++ [fin] ∧
    (∀ x ∈ mid, x.status = "generating" ∧ x.result_path = j3.result_path ∧
        x.error = j3.error ∧ (x.progress = 70 ∨ x.progress = 90)) ∧
    ((fin.status = "completed" ∧ fin.progress = 100 ∧
        (∃ p, fin.result_path = some p) ∧ fin.error = j3.error) ∨
     (fin.status = "failed" ∧ (∃ e, fin.error = some e) ∧
        fin.result_path = j3.result_path ∧ (fin.progress = 70 ∨ fin.progress = 90))) ∧
    (j3.progress ≤ 70 →
      List.Chain' (fun a b => a.progress ≤ b.progress)
        (j3 :: genStage c req jobId j3 pd)) := by
  cases hg : c.generate_documentation pd req.doc_style req.llm_model
      req.include_examples req.include_tests req.include_metrics with
  | error e =>
    simp only [genStage, hg]
    refine ⟨[genJob j3], failJob (genJob j3) e, rfl, ?_, ?_, ?_⟩
    · intro x hx
      simp only [List.mem_singleton] at hx
      subst hx
      exact ⟨rfl, rfl, rfl, Or.inl rfl⟩
    · exact Or.inr ⟨rfl, ⟨e, rfl⟩, rfl, Or.inl rfl⟩
    · intro h3
      norm_num [List.chain'_cons, failJob, genJob, h3]
  | ok documentation =>
    cases hm : c.mkdir ("output/" ++ jobId) with
    | error e =>
      simp only [genStage, hg, hm]
      refine ⟨[genJob j3, saveJob (genJob j3)], failJob (saveJob (genJob j3)) e,
        rfl, ?_, ?_, ?_⟩
      · intro x hx
        simp only [List.mem_cons, List.mem_singleton, List.not_mem_nil, or_false] at hx
        rcases hx with rfl | rfl
        · exact ⟨rfl, rfl, rfl, Or.inl rfl⟩
        · exact ⟨rfl, rfl, rfl, Or.inr rfl⟩
      · exact Or.inr ⟨rfl, ⟨e, rfl⟩, rfl, Or.inr rfl⟩
      · intro h3
        norm_num [List.chain'_cons, failJob, genJob, saveJob, h3]
    | ok u =>
      cases hw : writeDoc c req ("output/" ++ jobId) documentation with
      | error e =>
        simp only [genStage, hg, hm, hw]
        refine ⟨[genJob j3, saveJob (genJob j3)], failJob (saveJob (genJob j3)) e,
          rfl, ?_, ?_, ?_⟩
        · intro x hx
          simp only [List.mem_cons, List.mem_singleton, List.not_mem_nil, or_false] at hx
          rcases hx with rfl | rfl
          · exact ⟨rfl, rfl, rfl, Or.inl rfl⟩
          · exact ⟨rfl, rfl, rfl, Or.inr rfl⟩
        · exact Or.inr ⟨rfl, ⟨e, rfl⟩, rfl, Or.inr rfl⟩
        · intro h3
          norm_num [List.chain'_cons, failJob, genJob, saveJob, h3]
      | ok docFile =>
        simp only [genStage, hg, hm, hw]
        refine ⟨[genJob j3, saveJob (genJob j3)],
          completeJob (saveJob (genJob j3)) docFile, rfl, ?_, ?_, ?_⟩
        · intro x hx
          simp only [List.mem_cons, List.mem_singleton, List.not_mem_nil, or_false] at hx
          rcases hx with rfl | rfl
          · exact ⟨rfl, rfl, rfl, Or.inl rfl⟩
          · exact ⟨rfl, rfl, rfl, Or.inr rfl⟩
        · exact Or.inl ⟨rfl, rfl, ⟨docFile, rfl⟩, rfl⟩
        · intro h3
          norm_num [List.chain'_cons, completeJob, genJob, saveJob, h3]

theorem processDocumentation_spec (c : Collaborators) (req : ScanRequest)
    (job0 : DocumentationJob) :
    ∃ mid fin, processDocumentation c req job0 = mid ++ [fin] ∧
    (∀ x ∈ mid,
        (x.status = "scanning" ∨ x.status = "parsing" ∨ x.status = "generating") ∧
        x.result_path = job0.result_path ∧ x.error = job0.error ∧
        0 ≤ x.progress ∧ x.progress ≤ 90) ∧
    ((fin.status = "completed" ∧ fin.progress = 100 ∧
        (∃ p, fin.result_path = some p) ∧ fin.error = job0.error) ∨
     (fin.status = "failed" ∧ (∃ e, fin.error = some e) ∧
        fin.result_path = job0.result_path ∧ 0 ≤ fin.progress ∧ fin.progress ≤ 90)) ∧
    (job0.progress = 0 →
      List.Chain' (fun a b => a.progress ≤ b.progress)
        (job0 :: processDocumentation c req job0)) := by
  cases hcp : choosePath c req with
  | error e =>
    simp only [processDocumentation, hcp]
    refine ⟨[startScan job0], failJob (startScan job0) e, rfl, ?_, ?_, ?_⟩
    · intro x hx
      simp only [List.mem_singleton] at hx
      subst hx
      refine ⟨Or.inl rfl, rfl, rfl, ?_, ?_⟩ <;> norm_num [startScan]
    · refine Or.inr ⟨rfl, ⟨e, rfl⟩, rfl, ?_, ?_⟩ <;> norm_num [failJob, startScan]
    · intro h0
      norm_num [List.chain'_cons, failJob, startScan, h0]
  | ok codePath =>
    cases hsd : c.scan_directory codePath req.file_patterns req.exclude_patterns with
    | error e =>
      simp only [processDocumentation, hcp, hsd]
      refine ⟨[startScan job0], failJob (startScan job0) e, rfl, ?_, ?_, ?_⟩
      · intro x hx
        simp only [List.mem_singleton] at hx
        subst hx
        refine ⟨Or.inl rfl, rfl, rfl, ?_, ?_⟩ <;> norm_num [startScan]
      · refine Or.inr ⟨rfl, ⟨e, rfl⟩, rfl, ?_, ?_⟩ <;> norm_num [failJob, startScan]
      · intro h0
        norm_num [List.chain'_cons, failJob, startScan, h0]
    | ok files =>
      rcases hpf : parseFiles c files.length files 0
          (foundFiles (startScan job0) files.length) [] with ⟨tr, res⟩
      have htr : (parseFiles c files.length files 0
          (foundFiles (startScan job0) files.length) []).1 = tr := by rw [hpf]
      have hj2prog : (foundFiles (startScan job0) files.length).progress =
          30 + (40 * ((0 : ℕ) : ℚ)) / ((files.length : ℕ) : ℚ) := by
        norm_num [foundFiles]
      cases res with
      | error p =>
        obtain ⟨e, j⟩ := p
        have hres : (parseFiles c files.length files 0
            (foundFiles (startScan job0) files.length) []).2 =
            Except.error (e, j) := by rw [hpf]
        have hne : files ≠ [] := by
          intro h
          subst h
          rw [parseFiles] at hres
          simp at hres
        have hn : 0 < files.length := List.length_pos.mpr hne
        obtain ⟨hlast, hst, hmsg, hrp, herr⟩ :=
          parseFiles_getLast_err c files.length files 0
            (foundFiles (startScan job0) files.length) [] e j hres
        obtain ⟨k, hk0, hkn, hkp⟩ :=
          parseFiles_err_progress c files.length files 0
            (foundFiles (startScan job0) files.length) [] e j hj2prog hres
        rw [htr] at hlast
        simp only [processDocumentation, hcp, hsd, hpf]
        refine ⟨startScan job0 :: foundFiles (startScan job0) files.length :: tr,
          failJob j e, rfl, ?_, ?_, ?_⟩
        · intro x hx
          simp only [List.mem_cons] at hx
          rcases hx with rfl | rfl | hx
          · refine ⟨Or.inl rfl, rfl, rfl, ?_, ?_⟩ <;> norm_num [startScan]
          · refine ⟨Or.inr (Or.inl rfl), rfl, rfl, ?_, ?_⟩ <;>
              norm_num [foundFiles, startScan]
          · rw [← htr] at hx
            obtain ⟨hxs, hxm, hxr, hxe, k', hk'0, hk'n, hk'p⟩ :=
              parseFiles_mem c files.length files 0
                (foundFiles (startScan job0) files.length) [] x hx
            refine ⟨Or.inr (Or.inl (hxs.trans rfl)), hxr.trans rfl,
              hxe.trans rfl, ?_, ?_⟩
            · rw [hk'p]
              have := @loopVal_ge_30 files.length k'
              linarith
            · rw [hk'p]
              have := @loopVal_le_70 files.length k' hn (by omega)
              linarith
        · refine Or.inr ⟨rfl, ⟨e, rfl⟩, hrp.trans rfl, ?_, ?_⟩
          · show (0 : ℚ) ≤ j.progress
            rw [hkp]
            have := @loopVal_ge_30 files.length k
            linarith
          · show j.progress ≤ 90
            rw [hkp]
            have := @loopVal_le_70 files.length k hn (by omega)
            linarith
        · intro h0
          show List.Chain' (fun a b => a.progress ≤ b.progress)
            ((job0 :: startScan job0 ::
              foundFiles (startScan job0) files.length :: tr) ++ [failJob j e])
          rw [List.chain'_append]
          refine ⟨?_, List.chain'_singleton _, ?_⟩
          · rw [List.chain'_cons]
            refine ⟨by norm_num [startScan, h0], ?_⟩
            rw [List.chain'_cons]
            refine ⟨by norm_num [startScan, foundFiles], ?_⟩
            have := parseFiles_chain c files.length files 0
              (foundFiles (startScan job0) files.length) [] (le_refl _) hj2prog
            rw [htr] at this
            exact this
          · intro x hx y hy
            simp only [List.getLast?_cons_cons] at hx
            rw [hlast] at hx
            simp only [Option.mem_def, Option.some.injEq] at hx
            subst hx
            simp only [List.head?_cons, Option.mem_def, Option.some.injEq] at hy
            subst hy
            simp [failJob]
      | ok q =>
        obtain ⟨j3, pd⟩ := q
        have hres : (parseFiles c files.length files 0
            (foundFiles (startScan job0) files.length) []).2 =
            Except.ok (j3, pd) := by rw [hpf]
        obtain ⟨hlast, hst, hmsg, hrp, herr⟩ :=
          parseFiles_getLast_ok c files.length files 0
            (foundFiles (startScan job0) files.length) [] j3 pd hres
        have hj3prog := parseFiles_ok_progress c files.length files 0
          (foundFiles (startScan job0) files.length) [] j3 pd hj2prog hres
        have hj3le : j3.progress ≤ 70 := by
          rw [hj3prog]
          rcases Nat.eq_zero_or_pos files.length with hz | hpos
          · rw [hz]
            norm_num
          · exact loopVal_le_70 hpos (by omega)
        obtain ⟨midg, fing, hgeq, hmidg, hfing, hchaing⟩ :=
          genStage_spec c req job0.job_id j3 pd
        rw [htr] at hlast
        simp only [processDocumentation, hcp, hsd, hpf]
        refine ⟨startScan job0 :: foundFiles (startScan job0) files.length ::
          (tr ++ midg), fing, ?_, ?_, ?_, ?_⟩
        · rw [hgeq]
          simp [List.append_assoc]
        · intro x hx
          simp only [List.mem_cons, List.mem_append] at hx
          rcases hx with rfl | rfl | hx | hx
          · refine ⟨Or.inl rfl, rfl, rfl, ?_, ?_⟩ <;> norm_num [startScan]
          · refine ⟨Or.inr (Or.inl rfl), rfl, rfl, ?_, ?_⟩ <;>
              norm_num [foundFiles, startScan]
          · rw [← htr] at hx
            obtain ⟨hxs, hxm, hxr, hxe, k', hk'0, hk'n, hk'p⟩ :=
              parseFiles_mem c files.length files 0
                (foundFiles (startScan job0) files.length) [] x hx
            have hn : 0 < files.length := by
              simp only [Nat.zero_add] at hk'n
              omega
            refine ⟨Or.inr (Or.inl (hxs.trans rfl)), hxr.trans rfl,
              hxe.trans rfl, ?_, ?_⟩
            · rw [hk'p]
              have := @loopVal_ge_30 files.length k'
              linarith
            · rw [hk'p]
              have := @loopVal_le_70 files.length k' hn (by omega)
              linarith
          · obtain ⟨hxs, hxr, hxe, hxp⟩ := hmidg x hx
            refine ⟨Or.inr (Or.inr hxs), hxr.trans (hrp.trans rfl),
              hxe.trans (herr.trans rfl), ?_, ?_⟩ <;>
              rcases hxp with hxp | hxp <;> rw [hxp] <;> norm_num
        · rcases hfing with ⟨hs, hp, hex, he⟩ | ⟨hs, hex, hr, hp⟩
          · exact Or.inl ⟨hs, hp, hex, he.trans (herr.trans rfl)⟩
          · refine Or.inr ⟨hs, hex, hr.trans (hrp.trans rfl), ?_, ?_⟩ <;>
              rcases hp with hp | hp <;> rw [hp] <;> norm_num
        · intro h0
          have hchain2 := hchaing hj3le
          rw [List.chain'_cons'] at hchain2
          obtain ⟨hjunc, hcg⟩ := hchain2
          show List.Chain' (fun a b => a.progress ≤ b.progress)
            ((job0 :: startScan job0 ::
              foundFiles (startScan job0) files.length :: tr) ++
              genStage c req job0.job_id j3 pd)
          rw [List.chain'_append]
          refine ⟨?_, hcg, ?_⟩
          · rw [List.chain'_cons]
            refine ⟨by norm_num [startScan, h0], ?_⟩
            rw [List.chain'_cons]
            refine ⟨by norm_num [startScan, foundFiles], ?_⟩
            have := parseFiles_chain c files.length files 0
              (foundFiles (startScan job0) files.length) [] (le_refl _) hj2prog
            rw [htr] at this
            exact this
          · intro x hx y hy
            simp only [List.getLast?_cons_cons] at hx
            rw [hlast] at hx
            simp only [Option.mem_def, Option.some.injEq] at hx
            subst hx
            exact hjunc y hy

/-! ## Claim theorems -/

/-- C1: Terminal-state field consistency — along every run of the
background worker, starting from the record submission creates, a
snapshot with status `completed` has progress 100, a result reference
and no error; one with status `failed` has an error and no result; and
every non-terminal snapshot has neither result nor error. -/
theorem claim_C1_terminal_fields (c : Collaborators) (req : ScanRequest)
    (job0 : DocumentationJob) (hst : job0.status = "scanning")
    (hrp : job0.result_path = none) (herr : job0.error = none) :
    TerminalFieldsOK (job0 :: processDocumentation c req job0) := by
  obtain ⟨mid, fin, heq, hmid, hfin, -⟩ := processDocumentation_spec c req job0
  intro x hx
  rw [heq] at hx
  simp only [List.mem_cons, List.mem_append, List.mem_singleton,
      List.not_mem_nil, or_false] at hx
  rcases hx with rfl | hx | rfl
  · refine ⟨?_, ?_, fun _ => ⟨hrp, herr⟩⟩
    · intro hc
      rw [hst] at hc
      exact absurd hc (by decide)
    · intro hc
      rw [hst] at hc
      exact absurd hc (by decide)
  · obtain ⟨hs, hr, he, -, -⟩ := hmid x hx
    refine ⟨?_, ?_, fun _ => ⟨hr.trans hrp, he.trans herr⟩⟩
    · intro hc
      rcases hs with h | h | h <;> rw [h] at hc <;> exact absurd hc (by decide)
    · intro hc
      rcases hs with h | h | h <;> rw [h] at hc <;> exact absurd hc (by decide)
  · rcases hfin with ⟨hs, hp, ⟨p, hxr⟩, he⟩ | ⟨hs, ⟨e, he⟩, hr, -, -⟩
    · refine ⟨fun _ => ⟨hp, by rw [hxr]; simp, he.trans herr⟩, ?_, ?_⟩
      · intro hc
        rw [hs] at hc
        exact absurd hc (by decide)
      · intro hnc
        exact absurd (show terminalStatus x.status from Or.inl hs) hnc
    · refine ⟨?_, fun _ => ⟨by rw [he]; simp, hr.trans hrp⟩, ?_⟩
      · intro hc
        rw [hs] at hc
        exact absurd hc (by decide)
      · intro hnc
        exact absurd (show terminalStatus x.status from Or.inr hs) hnc

/-- Witness for C1 on a fully successful concrete run. -/
theorem claim_C1_witness :
    TerminalFieldsOK (initialJob 5 :: processDocumentation okCollab wreq (initialJob 5)) :=
  claim_C1_terminal_fields okCollab wreq (initialJob 5) rfl rfl rfl

/-- C6: Progress bounds and monotonicity — along every run of the
worker, starting from the submitted record (status `scanning`,
progress 0), progress stays inside [0, 100], never decreases from one
snapshot to the next, and equals 100 exactly on the snapshots whose
status is `completed`. -/
theorem claim_C6_progress (c : Collaborators) (req : ScanRequest)
    (job0 : DocumentationJob) (hst : job0.status = "scanning")
    (hp0 : job0.progress = 0) :
    ProgressOK (job0 :: processDocumentation c req job0) := by
  obtain ⟨mid, fin, heq, hmid, hfin, hchain⟩ := processDocumentation_spec c req job0
  refine ⟨?_, hchain hp0, ?_⟩
  · intro x hx
    rw [heq] at hx
    simp only [List.mem_cons, List.mem_append, List.mem_singleton,
      List.not_mem_nil, or_false] at hx
    rcases hx with rfl | hx | rfl
    · rw [hp0]
      norm_num
    · obtain ⟨-, -, -, h1, h2⟩ := hmid x hx
      constructor <;> linarith
    · rcases hfin with ⟨-, hp, -, -⟩ | ⟨-, -, -, h1, h2⟩
      · rw [hp]
        norm_num
      · constructor <;> linarith
  · intro x hx
    rw [heq] at hx
    simp only [List.mem_cons, List.mem_append, List.mem_singleton,
      List.not_mem_nil, or_false] at hx
    rcases hx with rfl | hx | rfl
    · constructor
      · intro h
        rw [hp0] at h
        norm_num at h
      · intro h
        rw [hst] at h
        exact absurd h (by decide)
    · obtain ⟨hs, -, -, -, h2⟩ := hmid x hx
      constructor
      · intro h
        rw [h] at h2
        norm_num at h2
      · intro h
        rcases hs with hh | hh | hh <;> rw [hh] at h <;> exact absurd h (by decide)
    · rcases hfin with ⟨hs, hp, -, -⟩ | ⟨hs, -, -, -, h2⟩
      · exact ⟨fun _ => hs, fun _ => hp⟩
      · constructor
        · intro h
          rw [h] at h2
          norm_num at h2
        · intro h
          rw [hs] at h
          exact absurd h (by decide)

/-- Witness for C6 on a fully successful concrete run. -/
theorem claim_C6_witness :
    ProgressOK (initialJob 5 :: processDocumentation okCollab wreq (initialJob 5)) :=
  claim_C6_progress okCollab wreq (initialJob 5) rfl rfl

/-- C5: Failure propagation — every run of the worker ends in a
terminal snapshot (no failure escapes the phase boundary: the trace is
total and final) and a `failed` ending always records the cause in
`error`; moreover a failure of any collaborator call — the directory
scan, the LLM generation, the repository clone, any per-file parse, the
output mkdir, or the document write (through `writeDoc`, whose error is
in turn exactly a failure of the markdown write, the HTML render, the
HTML write, or the other-style write) — transitions the job directly to
`failed` with that collaborator's message, with no retry and no removal
of earlier snapshots or side effects. -/
theorem claim_C5_failure_propagation :
    (∀ (c : Collaborators) (req : ScanRequest) (job0 : DocumentationJob),
       ∃ fin, (processDocumentation c req job0).getLast? = some fin ∧
         terminalStatus fin.status ∧
         (fin.status = "failed" → ∃ e, fin.error = some e)) ∧
    (∀ (c : Collaborators) (req : ScanRequest) (job0 : DocumentationJob)
       (p e : String),
       choosePath c req = Except.ok p →
       c.scan_directory p req.file_patterns req.exclude_patterns =
         Except.error e →
       processDocumentation c req job0 =
         [startScan job0, failJob (startScan job0) e]) ∧
    (∀ (c : Collaborators) (req : ScanRequest) (job0 : DocumentationJob)
       (p : String) (files : List String) (tr : List DocumentationJob)
       (j3 : DocumentationJob) (pd : List String) (e : String),
       choosePath c req = Except.ok p →
       c.scan_directory p req.file_patterns req.exclude_patterns =
         Except.ok files →
       parseFiles c files.length files 0
         (foundFiles (startScan job0) files.length) [] =
         (tr, Except.ok (j3, pd)) →
       c.generate_documentation pd req.doc_style req.llm_model
         req.include_examples req.include_tests req.include_metrics =
         Except.error e →
       processDocumentation c req job0 =
         startScan job0 :: foundFiles (startScan job0) files.length ::
           (tr ++ [genJob j3, failJob (genJob j3) e])) ∧
    (∀ (c : Collaborators) (req : ScanRequest) (job0 : DocumentationJob)
       (e : String),
       truthyOpt req.repo_url = true →
       c.clone_repository (req.repo_url.getD "") = Except.error e →
       processDocumentation c req job0 =
         [startScan job0, failJob (startScan job0) e]) ∧
    (∀ (c : Collaborators) (n : ℕ) (f : String) (rest : List String)
       (i : ℕ) (job : DocumentationJob) (acc : List String) (e : String),
       c.parse_file f = Except.error e →
       parseFiles c n (f :: rest) i job acc = ([], Except.error (e, job))) ∧
    (∀ (c : Collaborators) (req : ScanRequest) (job0 : DocumentationJob)
       (p : String) (files : List String) (tr : List DocumentationJob)
       (e : String) (j : DocumentationJob),
       choosePath c req = Except.ok p →
       c.scan_directory p req.file_patterns req.exclude_patterns =
         Except.ok files →
       parseFiles c files.length files 0
         (foundFiles (startScan job0) files.length) [] =
         (tr, Except.error (e, j)) →
       processDocumentation c req job0 =
         startScan job0 :: foundFiles (startScan job0) files.length ::
           (tr ++ [failJob j e])) ∧
    (∀ (c : Collaborators) (req : ScanRequest) (job0 : DocumentationJob)
       (p : String) (files : List String) (tr : List DocumentationJob)
       (j3 : DocumentationJob) (pd : List String) (documentation e : String),
       choosePath c req = Except.ok p →
       c.scan_directory p req.file_patterns req.exclude_patterns =
         Except.ok files →
       parseFiles c files.length files 0
         (foundFiles (startScan job0) files.length) [] =
         (tr, Except.ok (j3, pd)) →
       c.generate_documentation pd req.doc_style req.llm_model
         req.include_examples req.include_tests req.include_metrics =
         Except.ok documentation →
       c.mkdir ("output/" ++ job0.job_id) = Except.error e →
       processDocumentation c req job0 =
         startScan job0 :: foundFiles (startScan job0) files.length ::
           (tr ++ [genJob j3, saveJob (genJob j3),
                   failJob (saveJob (genJob j3)) e])) ∧
    (∀ (c : Collaborators) (req : ScanRequest) (job0 : DocumentationJob)
       (p : String) (files : List String) (tr : List DocumentationJob)
       (j3 : DocumentationJob) (pd : List String) (documentation e : String),
       choosePath c req = Except.ok p →
       c.scan_directory p req.file_patterns req.exclude_patterns =
         Except.ok files →
       parseFiles c files.length files 0
         (foundFiles (startScan job0) files.length) [] =
         (tr, Except.ok (j3, pd)) →
       c.generate_documentation pd req.doc_style req.llm_model
         req.include_examples req.include_tests req.include_metrics =
         Except.ok documentation →
       c.mkdir ("output/" ++ job0.job_id) = Except.ok () →
       writeDoc c req ("output/" ++ job0.job_id) documentation =
         Except.error e →
       processDocumentation c req job0 =
         startScan job0 :: foundFiles (startScan job0) files.length ::
           (tr ++ [genJob j3, saveJob (genJob j3),
                   failJob (saveJob (genJob j3)) e])) ∧
    (∀ (c : Collaborators) (req : ScanRequest) (outDir documentation e : String),
       req.doc_style = "markdown" →
       c.write_text (outDir ++ "/documentation.md") documentation =
         Except.error e →
       writeDoc c req outDir documentation = Except.error e) ∧
    (∀ (c : Collaborators) (req : ScanRequest) (outDir documentation e : String),
       req.doc_style = "html" →
       c.render_html documentation = Except.error e →
       writeDoc c req outDir documentation = Except.error e) ∧
    (∀ (c : Collaborators) (req : ScanRequest) (outDir documentation html e : String),
       req.doc_style = "html" →
       c.render_html documentation = Except.ok html →
       c.write_text (outDir ++ "/documentation.html") html = Except.error e →
       writeDoc c req outDir documentation = Except.error e) ∧
    (∀ (c : Collaborators) (req : ScanRequest) (outDir documentation e : String),
       req.doc_style ≠ "markdown" → req.doc_style ≠ "html" →
       c.write_text (outDir ++ "/documentation." ++ req.doc_style)
         documentation = Except.error e →
       writeDoc c req outDir documentation = Except.error e) := by
  refine ⟨?_, ?_, ?_, ?_, ?_, ?_, ?_, ?_, ?_, ?_, ?_, ?_⟩
  · intro c req job0
    obtain ⟨mid, fin, heq, -, hfin, -⟩ := processDocumentation_spec c req job0
    refine ⟨fin, ?_, ?_, ?_⟩
    · rw [heq]
      simp [List.getLast?_append]
    · rcases hfin with ⟨hs, -⟩ | ⟨hs, -⟩
      · exact Or.inl hs
      · exact Or.inr hs
    · intro hf
      rcases hfin with ⟨hs, -⟩ | ⟨-, he, -⟩
      · rw [hs] at hf
        exact absurd hf (by decide)
      · exact he
  · intro c req job0 p e h1 h2
    simp only [processDocumentation, h1, h2]
  · intro c req job0 p files tr j3 pd e h1 h2 h3 h4
    simp only [processDocumentation, genStage, h1, h2, h3, h4]
  · intro c req job0 e h1 h2
    have hcp : choosePath c req = Except.error e := by
      simp [choosePath, h1, h2]
    simp only [processDocumentation, hcp]
  · intro c n f rest i job acc e h
    simp only [parseFiles, h]
  · intro c req job0 p files tr e j h1 h2 h3
    simp only [processDocumentation, h1, h2, h3]
  · intro c req job0 p files tr j3 pd documentation e h1 h2 h3 h4 h5
    simp only [processDocumentation, genStage, h1, h2, h3, h4, h5]
  · intro c req job0 p files tr j3 pd documentation e h1 h2 h3 h4 h5 h6
    simp only [processDocumentation, genStage, h1, h2, h3, h4, h5, h6]
  · intro c req outDir documentation e h1 h2
    simp [writeDoc, h1, h2]
  · intro c req outDir documentation e h1 h2
    simp [writeDoc, h1, h2]
  · intro c req outDir documentation html e h1 h2 h3
    simp [writeDoc, h1, h2, h3]
  · intro c req outDir documentation e h1 h2 h3
    simp [writeDoc, h1, h2, h3]

/-- Witness for C5: a concrete run whose scan phase raises. -/
theorem claim_C5_witness :
    processDocumentation failScanCollab wreq (initialJob 5) =
      [startScan (initialJob 5), failJob (startScan (initialJob 5)) "boom"] :=
  claim_C5_failure_propagation.2.1 failScanCollab wreq (initialJob 5)
    "/code" "boom" rfl rfl

/-- C7: Terminal states are absorbing — in every worker run a terminal
snapshot is never followed by a different snapshot (it can only be the
last), and the read endpoints (status poll, result download, template
application) never modify the job table. -/
theorem claim_C7_terminal_absorbing :
    (∀ (c : Collaborators) (req : ScanRequest) (job0 : DocumentationJob),
       TerminalAbsorbing (processDocumentation c req job0)) ∧
    (∀ (db : JobsDB) (jobId : String), (getJobStatus db jobId).2 = db) ∧
    (∀ (fs : String → Bool) (db : JobsDB) (jobId : String),
       (downloadDocumentation fs db jobId).2 = db) ∧
    (∀ (c : Collaborators) (db : JobsDB) (templateName jobId : String),
       (applyTemplate c db templateName jobId).2 = db) := by
  refine ⟨?_, ?_, ?_, ?_⟩
  · intro c req job0 i j hi hj hij ht
    obtain ⟨mid, fin, heq, hmid, hfin, -⟩ := processDocumentation_spec c req job0
    have hlen : (processDocumentation c req job0).length = mid.length + 1 := by
      rw [heq]
      simp
    have hi' : i = mid.length := by
      by_contra hne
      have hilt : i < mid.length := by omega
      have hgi : (processDocumentation c req job0).get ⟨i, hi⟩ = mid.get ⟨i, hilt⟩ := by
        rw [List.get_of_eq heq ⟨i, hi⟩, List.get_eq_getElem, List.get_eq_getElem]
        exact List.getElem_append_left hilt
      have hmem : mid.get ⟨i, hilt⟩ ∈ mid := List.get_mem mid i hilt
      obtain ⟨hs, -, -, -, -⟩ := hmid _ hmem
      rw [hgi] at ht
      rcases ht with ht | ht <;> rcases hs with h | h | h <;>
        rw [h] at ht <;> exact absurd ht (by decide)
    have hj' : j = i := by omega
    subst hj'
    rfl
  · intro db jobId
    unfold getJobStatus
    cases lookupJob db jobId <;> rfl
  · intro fs db jobId
    unfold downloadDocumentation
    cases lookupJob db jobId with
    | none => rfl
    | some job =>
      dsimp only
      split
      · rfl
      · split <;> rfl
  · intro c db templateName jobId
    unfold applyTemplate
    cases lookupJob db jobId with
    | none => rfl
    | some job =>
      dsimp only
      split
      · rfl
      · split <;> rfl

/-- Witness for C7 at the terminal snapshot of a concrete run. -/
theorem claim_C7_witness :
    (processDocumentation okCollab wreq (initialJob 5)).get ⟨6, by decide⟩ =
    (processDocumentation okCollab wreq (initialJob 5)).get ⟨6, by decide⟩ :=
  claim_C7_terminal_absorbing.1 okCollab wreq (initialJob 5) 6 6
    (by decide) (by decide) (le_refl 6) (by decide)

/-- Helper for C8: on a table whose statuses are all reachable ones,
the three in-flight labels counted by `health_check` are exactly the
non-terminal statuses. -/
theorem health_active_aux : ∀ (db : JobsDB),
    (∀ p ∈ db, p.2.status ∈ allStatuses) →
    (db.filter (fun p =>
      p.2.status = "scanning" ∨ p.2.status = "parsing" ∨
        p.2.status = "generating")).length =
    (db.filter (fun p => ¬ terminalStatus p.2.status)).length := by
  intro db
  induction db with
  | nil => intro _; rfl
  | cons hd tl ih =>
    intro hall
    have hhd : hd.2.status ∈ allStatuses := hall hd (by simp)
    have htl := fun p hp => hall p (List.mem_cons_of_mem hd hp)
    have h5 : hd.2.status = "scanning" ∨ hd.2.status = "parsing" ∨
        hd.2.status = "generating" ∨ hd.2.status = "completed" ∨
        hd.2.status = "failed" := by simpa [allStatuses] using hhd
    rcases h5 with h | h | h | h | h <;>
      simp [List.filter_cons, h, terminalStatus] <;>
      simpa [terminalStatus] using ih htl

/-- C8 (amended): the health endpoint of the documentation generator's
full service reports the total number of jobs in the table and (for
tables holding only reachable statuses) the number of jobs in a
non-terminal state. -/
theorem claim_C8_amended (now : ℕ) (db : JobsDB) :
    (healthCheck now db).jobs_count = db.length ∧
    ((∀ p ∈ db, p.2.status ∈ allStatuses) →
      (healthCheck now db).active_jobs =
        (db.filter (fun p => ¬ terminalStatus p.2.status)).length) :=
  ⟨rfl, fun hall => health_active_aux db hall⟩

/-- Witness for C8 on a one-job table. -/
theorem claim_C8_witness :
    (healthCheck 7 [("1", initialJob 1)]).active_jobs =
      ([("1", initialJob 1)].filter
        (fun p => ¬ terminalStatus p.2.status)).length :=
  (claim_C8_amended 7 [("1", initialJob 1)]).2 (by decide)

/-- C8 counterexample: the simplified service's health endpoint returns
an identical response for a one-job table and for the empty table, so
it reports neither the total nor the non-terminal job count as the
claim asserts of every demo service. -/
theorem claim_C8_counterexample :
    simpleHealthCheck "t1" [("a", cexSimpleJob)] = simpleHealthCheck "t1" [] ∧
    ([("a", cexSimpleJob)] : SimpleJobsDB).length ≠ ([] : SimpleJobsDB).length :=
  ⟨rfl, by decide⟩

/-- C2 (amended): in the full service, provided no earlier submission
used the current timestamp (ids are stringified timestamps), `submit`
returns a fresh id, registers the job in the initial non-terminal
`scanning` phase with progress 0 without running the worker (only a
task descriptor is scheduled), and an immediate status call on the id
returns that record, whose progress is strictly below 100. -/
theorem claim_C2_amended (now : ℕ) (req : ScanRequest) (db : JobsDB)
    (hfresh : lookupJob db (toString now) = none) :
    (scanCodebase now req db).1 = { job_id := toString now, status := "started" } ∧
    lookupJob db (scanCodebase now req db).1.job_id = none ∧
    (getJobStatus (scanCodebase now req db).2.1
        (scanCodebase now req db).1.job_id).1 = Except.ok (initialJob now) ∧
    (initialJob now).status = "scanning" ∧
    ¬ terminalStatus (initialJob now).status ∧
    (initialJob now).progress = 0 ∧ (initialJob now).progress < 100 ∧
    (scanCodebase now req db).2.2 = { job_id := toString now, request := req } := by
  refine ⟨rfl, hfresh, ?_, rfl, ?_, rfl, by norm_num [initialJob], rfl⟩
  · show (getJobStatus (insertJob db (toString now) (initialJob now))
      (toString now)).1 = _
    simp [getJobStatus, lookupJob_insertJob_self]
  · intro h
    rcases h with h | h <;> simp [initialJob] at h

/-- Witness for C2 on an empty table. -/
theorem claim_C2_witness :
    (getJobStatus (scanCodebase 5 wreq []).2.1
        (scanCodebase 5 wreq []).1.job_id).1 = Except.ok (initialJob 5) :=
  (claim_C2_amended 5 wreq [] rfl).2.2.1

/-- C2 counterexample: in the simplified service the submit handler
synchronously marks the job `completed` before returning, so an
immediate status call on the returned id reports `completed` — neither
`queued` nor `running`, and already terminal. -/
theorem claim_C2_counterexample :
    Except.map SimpleJob.status
      (simpleGetJobStatus (simpleScanCodebase "abc12345" "t0" cexReq []).2
        "abc12345").1 = Except.ok "completed" := by
  rfl

/-- C3: the result-fetch endpoint fails with `NotFound` on an unknown
id, with `NotReady` (the 400) when the job is not `completed`, with
`ResultMissing` when the job is `completed` but its artifact is gone
from the backing store, and otherwise returns the artifact path. -/
theorem claim_C3_fetch_result (fs : String → Bool) (db : JobsDB) (jobId : String) :
    (lookupJob db jobId = none →
      (downloadDocumentation fs db jobId).1 = Except.error HErr.notFound) ∧
    (∀ job, lookupJob db jobId = some job → job.status ≠ "completed" →
      (downloadDocumentation fs db jobId).1 = Except.error HErr.notReady) ∧
    (∀ job p, lookupJob db jobId = some job → job.status = "completed" →
      job.result_path = some p → fs p = false →
      (downloadDocumentation fs db jobId).1 = Except.error HErr.resultMissing) ∧
    (∀ job p, lookupJob db jobId = some job → job.status = "completed" →
      job.result_path = some p → p ≠ "" → fs p = true →
      (downloadDocumentation fs db jobId).1 = Except.ok p) := by
  refine ⟨?_, ?_, ?_, ?_⟩
  · intro h
    simp [downloadDocumentation, h]
  · intro job h hs
    simp [downloadDocumentation, h, hs]
  · intro job p h hs hr hf
    simp [downloadDocumentation, h, hs, hr, falsyPath, hf]
  · intro job p h hs hr hne hf
    have hie : p.isEmpty = false := by
      rw [Bool.eq_false_iff]
      intro hh
      exact hne ((String.isEmpty_iff p).mp hh)
    simp [downloadDocumentation, h, hs, hr, falsyPath, hie, hf]

/-- Witness for C3 on the empty table. -/
theorem claim_C3_witness :
    (downloadDocumentation (fun _ => true) [] "x").1 =
      Except.error HErr.notFound :=
  (claim_C3_fetch_result (fun _ => true) [] "x").1 rfl

/-- C4: the status endpoint fails with `NotFound` (404) on an unknown
id and returns the stored snapshot otherwise, in both the full and the
simplified service; the failure is an error value, never a default
record. -/
theorem claim_C4_status_lookup :
    (∀ (db : JobsDB) (jobId : String), lookupJob db jobId = none →
      (getJobStatus db jobId).1 = Except.error HErr.notFound) ∧
    (∀ (db : JobsDB) (jobId : String) (j : DocumentationJob),
      lookupJob db jobId = some j → (getJobStatus db jobId).1 = Except.ok j) ∧
    (∀ (db : SimpleJobsDB) (jobId : String), lookupSimple db jobId = none →
      (simpleGetJobStatus db jobId).1 = Except.error HErr.notFound) ∧
    (∀ (db : SimpleJobsDB) (jobId : String) (j : SimpleJob),
      lookupSimple db jobId = some j →
      (simpleGetJobStatus db jobId).1 = Except.ok j) := by
  refine ⟨?_, ?_, ?_, ?_⟩
  · intro db jobId h
    simp [getJobStatus, h]
  · intro db jobId j h
    simp [getJobStatus, h]
  · intro db jobId h
    simp [simpleGetJobStatus, h]
  · intro db jobId j h
    simp [simpleGetJobStatus, h]

/-- Witness for C4 on the empty table. -/
theorem claim_C4_witness :
    (getJobStatus [] "x").1 = Except.error HErr.notFound :=
  claim_C4_status_lookup.1 [] "x" rfl

/-- C10: submission has no validation failure path — every well-typed
request creates and registers a job whose snapshot an immediate status
call returns — and when both `repo_url` and `local_path` are absent the
worker's target directory resolves to `"."`. -/
theorem claim_C10_no_validation (c : Collaborators) (now : ℕ)
    (req : ScanRequest) (db : JobsDB) :
    (scanCodebase now req db).2.1 = insertJob db (toString now) (initialJob now) ∧
    (getJobStatus (scanCodebase now req db).2.1 (toString now)).1 =
      Except.ok (initialJob now) ∧
    (req.repo_url = none → req.local_path = none →
      choosePath c req = Except.ok ".") := by
  refine ⟨rfl, ?_, ?_⟩
  · simp [scanCodebase, getJobStatus, lookupJob_insertJob_self]
  · intro h1 h2
    simp [choosePath, truthyOpt, h1, h2]

/-- Witness for C10 with both target fields absent. -/
theorem claim_C10_witness : choosePath okCollab defReq = Except.ok "." :=
  (claim_C10_no_validation okCollab 5 defReq []).2.2 rfl rfl

/-! ## Lemmas about the scanner -/

theorem charListLt_trans : ∀ (a b c : List Char),
    charListLt a b = true → charListLt b c = true → charListLt a c = true := by
  intro a
  induction a with
  | nil =>
    intro b c hab hbc
    cases b with
    | nil => simp [charListLt] at hab
    | cons y ys =>
      cases c with
      | nil => simp [charListLt] at hbc
      | cons z zs => rfl
  | cons x xs ih =>
    intro b c hab hbc
    cases b with
    | nil => simp [charListLt] at hab
    | cons y ys =>
      cases c with
      | nil => simp [charListLt] at hbc
      | cons z zs =>
        simp only [charListLt, Bool.or_eq_true, Bool.and_eq_true,
          decide_eq_true_eq] at hab hbc ⊢
        rcases hab with h1 | ⟨h1e, h1r⟩
        · rcases hbc with h2 | ⟨h2e, h2r⟩
          · exact Or.inl (lt_trans h1 h2)
          · subst h2e
            exact Or.inl h1
        · subst h1e
          rcases hbc with h2 | ⟨h2e, h2r⟩
          · exact Or.inl h2
          · subst h2e
            exact Or.inr ⟨rfl, ih ys zs h1r h2r⟩

theorem charListLt_trichotomy : ∀ (a b : List Char),
    charListLt a b = true ∨ a = b ∨ charListLt b a = true := by
  intro a
  induction a with
  | nil =>
    intro b
    cases b with
    | nil => exact Or.inr (Or.inl rfl)
    | cons y ys => exact Or.inl rfl
  | cons x xs ih =>
    intro b
    cases b with
    | nil => exact Or.inr (Or.inr rfl)
    | cons y ys =>
      rcases lt_trichotomy x y with h | h | h
      · left
        simp [charListLt, h]
      · subst h
        rcases ih ys with h2 | h2 | h2
        · left
          simp [charListLt, h2]
        · subst h2
          exact Or.inr (Or.inl rfl)
        · right
          right
          simp [charListLt, h2]
      · right
        right
        simp [charListLt, h]

theorem partsLe_trans : ∀ (a b c : List String),
    partsLe a b = true → partsLe b c = true → partsLe a c = true := by
  intro a
  induction a with
  | nil => intro b c _ _; rfl
  | cons x xs ih =>
    intro b c hab hbc
    cases b with
    | nil => simp [partsLe] at hab
    | cons y ys =>
      cases c with
      | nil => simp [partsLe] at hbc
      | cons z zs =>
        simp only [partsLe, Bool.or_eq_true, Bool.and_eq_true,
          decide_eq_true_eq] at hab hbc ⊢
        rcases hab with h1 | ⟨h1e, h1r⟩
        · rcases hbc with h2 | ⟨h2e, h2r⟩
          · exact Or.inl (charListLt_trans _ _ _ h1 h2)
          · subst h2e
            exact Or.inl h1
        · subst h1e
          rcases hbc with h2 | ⟨h2e, h2r⟩
          · exact Or.inl h2
          · subst h2e
            exact Or.inr ⟨rfl, ih ys zs h1r h2r⟩

theorem partsLe_total : ∀ (a b : List String),
    (partsLe a b || partsLe b a) = true := by
  intro a
  induction a with
  | nil => intro b; rfl
  | cons x xs ih =>
    intro b
    cases b with
    | nil => rfl
    | cons y ys =>
      simp only [partsLe, Bool.or_eq_true, Bool.and_eq_true, decide_eq_true_eq]
      rcases charListLt_trichotomy x.data y.data with h | h | h
      · exact Or.inl (Or.inl h)
      · have hxy : x = y := by
          cases x
          cases y
          exact congrArg String.mk (by simpa using h)
        subst hxy
        have h2 := ih ys
        rw [Bool.or_eq_true] at h2
        rcases h2 with h2 | h2
        · exact Or.inl (Or.inr ⟨rfl, h2⟩)
        · exact Or.inr (Or.inr ⟨rfl, h2⟩)
      · exact Or.inr (Or.inl h)

theorem mem_insortPath (a x : List String) :
    ∀ (l : List (List String)), a ∈ insortPath x l ↔ a = x ∨ a ∈ l := by
  intro l
  induction l with
  | nil => simp [insortPath]
  | cons y ys ih =>
    rw [insortPath]
    by_cases h : partsLe x y = true
    · rw [if_pos h]
      simp [List.mem_cons]
    · rw [if_neg h]
      simp only [List.mem_cons, ih]
      tauto

theorem insortPath_sorted (x : List String) :
    ∀ (l : List (List String)),
    l.Pairwise (fun a b => partsLe a b = true) →
    (insortPath x l).Pairwise (fun a b => partsLe a b = true) := by
  intro l
  induction l with
  | nil => intro _; simp [insortPath]
  | cons y ys ih =>
    intro hl
    rw [List.pairwise_cons] at hl
    obtain ⟨hy, hys⟩ := hl
    rw [insortPath]
    by_cases h : partsLe x y = true
    · rw [if_pos h]
      rw [List.pairwise_cons]
      refine ⟨?_, List.pairwise_cons.mpr ⟨hy, hys⟩⟩
      intro b hb
      rcases List.mem_cons.mp hb with rfl | hb
      · exact h
      · exact partsLe_trans x y b h (hy b hb)
    · rw [if_neg h]
      rw [List.pairwise_cons]
      refine ⟨?_, ih hys⟩
      intro b hb
      rw [mem_insortPath] at hb
      rcases hb with rfl | hb
      · have ht := partsLe_total b y
        rw [Bool.or_eq_true] at ht
        rcases ht with ht | ht
        · exact absurd ht h
        · exact ht
      · exact hy b hb

theorem sortPaths_sorted (l : List (List String)) :
    (sortPaths l).Pairwise (fun a b => partsLe a b = true) := by
  induction l with
  | nil => simp [sortPaths]
  | cons x xs ih =>
    rw [sortPaths, List.foldr_cons]
    exact insortPath_sorted x _ ih

theorem mem_sortPaths (a : List String) : ∀ (l : List (List String)),
    a ∈ sortPaths l ↔ a ∈ l := by
  intro l
  induction l with
  | nil => simp [sortPaths]
  | cons x xs ih =>
    rw [sortPaths, List.foldr_cons, mem_insortPath]
    rw [sortPaths] at ih
    rw [ih, List.mem_cons]

theorem hereFiles_mem (fp xp root : List String) (entries : List FSEntry)
    (x : List String) (hx : x ∈ hereFiles fp xp root entries) :
    ∃ fn, x = root ++ [fn] ∧ matchesPatterns fn fp = true ∧
      shouldExclude x xp = false ∧
      supportedExtensions.contains (suffixLower fn) = true := by
  simp only [hereFiles, List.mem_filterMap] at hx
  obtain ⟨e, he, hsome⟩ := hx
  cases e with
  | dir d cs => simp at hsome
  | file fn =>
    simp only at hsome
    split at hsome
    case isTrue hcond =>
      obtain rfl : root ++ [fn] = x := Option.some.inj hsome
      rw [Bool.and_eq_true, Bool.and_eq_true] at hcond
      obtain ⟨⟨h1, h2⟩, h3⟩ := hcond
      rw [Bool.not_eq_true'] at h2
      exact ⟨fn, rfl, h1, h2, h3⟩
    case isFalse => simp at hsome

theorem walkEntries_mem (fp xp : List String) :
    ∀ (entries : List FSEntry) (root x : List String),
      x ∈ walkEntries fp xp root entries →
      ∃ ps fn, x = ps ++ [fn] ∧ matchesPatterns fn fp = true ∧
        shouldExclude x xp = false ∧
        supportedExtensions.contains (suffixLower fn) = true := by
  have key : ∀ (m : ℕ) (entries : List FSEntry), sizeOf entries ≤ m →
      ∀ (root x : List String), x ∈ walkEntries fp xp root entries →
      ∃ ps fn, x = ps ++ [fn] ∧ matchesPatterns fn fp = true ∧
        shouldExclude x xp = false ∧
        supportedExtensions.contains (suffixLower fn) = true := by
    intro m
    induction m with
    | zero =>
      intro entries hsz root x hx
      cases entries with
      | nil =>
        rw [walkEntries] at hx
        simp at hx
      | cons e rest =>
        simp only [List.cons.sizeOf_spec] at hsz
        omega
    | succ m ih =>
      intro entries hsz root x hx
      cases entries with
      | nil =>
        rw [walkEntries] at hx
        simp at hx
      | cons e rest =>
        cases e with
        | file fn =>
          rw [walkEntries] at hx
          refine ih rest ?_ root x hx
          simp only [List.cons.sizeOf_spec, FSEntry.file.sizeOf_spec] at hsz ⊢
          omega
        | dir d cs =>
          rw [walkEntries] at hx
          rw [List.mem_append] at hx
          rcases hx with hx | hx
          · by_cases hex : shouldExclude [d] xp = true
            · rw [if_pos hex] at hx
              simp at hx
            · rw [if_neg hex] at hx
              rw [List.mem_append] at hx
              rcases hx with hx | hx
              · obtain ⟨fn, hfn, h1, h2, h3⟩ :=
                  hereFiles_mem fp xp (root ++ [d]) cs x hx
                exact ⟨root ++ [d], fn, hfn, h1, h2, h3⟩
              · refine ih cs ?_ (root ++ [d]) x hx
                simp only [List.cons.sizeOf_spec, FSEntry.dir.sizeOf_spec] at hsz ⊢
                omega
          · refine ih rest ?_ root x hx
            simp only [List.cons.sizeOf_spec, FSEntry.dir.sizeOf_spec] at hsz ⊢
            omega
  intro entries root x hx
  exact key (sizeOf entries) entries (le_refl _) root x hx

theorem osWalkScan_mem (fp xp root : List String) (entries : List FSEntry)
    (x : List String) (hx : x ∈ osWalkScan fp xp root entries) :
    ∃ ps fn, x = ps ++ [fn] ∧ matchesPatterns fn fp = true ∧
      shouldExclude x xp = false ∧
      supportedExtensions.contains (suffixLower fn) = true := by
  rw [osWalkScan, List.mem_append] at hx
  rcases hx with hx | hx
  · obtain ⟨fn, hfn, h1, h2, h3⟩ := hereFiles_mem fp xp root entries x hx
    exact ⟨root, fn, hfn, h1, h2, h3⟩
  · exact walkEntries_mem fp xp entries root x hx

/-- C9 (amended): for every *nonempty* file-pattern list, every path
the scanner returns splits into a directory prefix and a filename whose
lower-cased suffix is a supported extension and which matches one of
the given file patterns; no component of the path matches any given
exclude pattern; and the returned list is sorted in ascending path
order (repeated scans agree because the scanner is a pure function).
When the file-pattern list is empty the scanner substitutes the
default pattern `*.*`, so the match-a-given-pattern clause fails. -/
theorem claim_C9_amended (root : List String) (entries : List FSEntry)
    (file_patterns exclude_patterns : List String)
    (hfp : file_patterns ≠ []) :
    (∀ p ∈ scan_directory root entries file_patterns exclude_patterns,
       ∃ ps fn, p = ps ++ [fn] ∧
         supportedExtensions.contains (suffixLower fn) = true ∧
         matchesPatterns fn file_patterns = true ∧
         (∀ part ∈ p, ∀ pat ∈ exclude_patterns, fnmatch part pat = false)) ∧
    List.Pairwise (fun a b => partsLe a b = true)
      (scan_directory root entries file_patterns exclude_patterns) := by
  have hfp' : ¬(file_patterns.isEmpty = true) := by
    cases file_patterns with
    | nil => exact absurd rfl hfp
    | cons a l => simp
  constructor
  · intro p hp
    rw [scan_directory, if_neg hfp'] at hp
    rw [mem_sortPaths] at hp
    obtain ⟨ps, fn, hpfn, hmatch, hexcl, hsupp⟩ :=
      osWalkScan_mem _ _ root entries p hp
    refine ⟨ps, fn, hpfn, hsupp, hmatch, ?_⟩
    intro part hpart pat hpat
    by_cases hxe : exclude_patterns.isEmpty = true
    · have : exclude_patterns = [] := by
        cases exclude_patterns with
        | nil => rfl
        | cons a l => simp at hxe
      rw [this] at hpat
      simp at hpat
    · rw [if_neg hxe] at hexcl
      simp only [shouldExclude, List.any_eq_false, Bool.or_eq_true,
        not_or, List.any_eq_true, not_exists] at hexcl
      obtain ⟨hparts, -⟩ := hexcl pat hpat
      have h3 : ¬(fnmatch part pat = true) := fun hf => hparts part ⟨hpart, hf⟩
      exact Bool.eq_false_iff.mpr h3
  · rw [scan_directory]
    exact sortPaths_sorted _

/-- Witness for C9 on a concrete two-level tree. -/
theorem claim_C9_witness :
    List.Pairwise (fun a b => partsLe a b = true)
      (scan_directory []
        [FSEntry.file "a.py", FSEntry.dir "src" [FSEntry.file "z.ts"]]
        ["*.py", "*.ts"] ["node_modules"]) :=
  (claim_C9_amended []
    [FSEntry.file "a.py", FSEntry.dir "src" [FSEntry.file "z.ts"]]
    ["*.py", "*.ts"] ["node_modules"] (by decide)).2

/-- C9 counterexample: with the empty file-pattern list the scanner
substitutes `*.*` and returns `a.py`, although `a.py` matches none of
the given (zero) file patterns — so the claim fails as a statement
about every pair of pattern lists. -/
theorem claim_C9_counterexample :
    scan_directory [] [FSEntry.file "a.py"] [] ["x"] = [["a.py"]] ∧
    matchesPatterns "a.py" [] = false := by
  constructor
  · simp only [scan_directory, osWalkScan, walkEntries]
    decide
  · rfl
